import Mathlib

/-!
Shallow embedding of the identity-matching and record-store core of the
mobile-attendance server (single Express source file).

Numbers that the JavaScript runtime treats as IEEE doubles are modelled as
exact rationals (`ℚ`); the square root computed by `euclideanDistance`
lives in `ℝ`.  Timestamps (`new Date().toISOString()`) are opaque strings
supplied by the caller.  The external face extractor
(`extractFaceDescriptor`) is modelled by its two observable outcomes:
a descriptor, or no face found (`null`).
-/

namespace FaceServer

/-- JavaScript `String.prototype.trim()`: strip whitespace from both ends.
Written at the character level so that the kernel can evaluate it (Lean's
own `String.trim` is defined through `Substring` byte positions, which do
not reduce). -/
def trimChars (cs : List Char) : List Char :=
  ((cs.dropWhile Char.isWhitespace).reverse.dropWhile Char.isWhitespace).reverse

/-- JavaScript `name.trim()` on Lean strings. -/
def jsTrim (s : String) : String := String.mk (trimChars s.data)

/-- JavaScript `name.toLowerCase()` (ASCII case mapping). -/
def jsToLower (s : String) : String := String.mk (s.data.map Char.toLower)

/-- A registered face record, as built by `app.post('/api/register')`:
`{ name: name.trim(), descriptor: Array.from(detection.descriptor), registeredAt }`. -/
structure FaceRecord where
  name : String
  descriptor : List ℚ
  registeredAt : String
  deriving Repr, DecidableEq, Inhabited

/-- Observable result of the external extractor `extractFaceDescriptor`:
either a numeric descriptor or `null` (no face detected). -/
inductive ExtractResult where
  | found (descriptor : List ℚ)
  | notFound
  deriving Repr, DecidableEq

/-- The sum inside `euclideanDistance(desc1, desc2)`: the JavaScript loop runs
`i` over `0 .. desc1.length-1` and accumulates `Math.pow(desc1[i] - desc2[i], 2)`.
Out-of-range reads of `desc2` (which would be `NaN` arithmetic in JavaScript)
are outside the modelled domain; theorems that depend on both vectors restrict
to `desc1.length ≤ desc2.length` where it matters. -/
def sqSum (desc1 desc2 : List ℚ) : ℚ :=
  ((List.range desc1.length).map fun i => (desc1.getD i 0 - desc2.getD i 0) ^ 2).sum

/-- `euclideanDistance(desc1, desc2) = Math.sqrt(sum)`. -/
noncomputable def euclideanDistance (desc1 desc2 : List ℚ) : ℝ :=
  Real.sqrt ((sqSum desc1 desc2 : ℚ) : ℝ)

/-- One step of the best-match scan in `app.post('/api/attendance')`:
`if (distance < bestDistance) { bestDistance = distance; bestMatch = face; }`.
The initial state `bestMatch = null, bestDistance = Infinity` is modelled by
`none`; any distance beats it. -/
noncomputable def scanStep (probe : List ℚ) (acc : Option (FaceRecord × ℝ))
    (face : FaceRecord) : Option (FaceRecord × ℝ) :=
  let d := euclideanDistance probe face.descriptor
  match acc with
  | none => some (face, d)
  | some (b, bd) => if d < bd then some (face, d) else some (b, bd)

/-- The `for (const face of faces)` best-match scan. -/
noncomputable def findBest (probe : List ℚ) (faces : List FaceRecord) :
    Option (FaceRecord × ℝ) :=
  faces.foldl (scanStep probe) none

/-- A candidate paired with its distance to the probe, for reasoning about
the scan. -/
noncomputable def pairOf (probe : List ℚ) (f : FaceRecord) : FaceRecord × ℝ :=
  (f, euclideanDistance probe f.descriptor)

/-- The best-match scan once a first candidate has been seen (after the first
loop iteration `bestMatch` is never `null` again): keeps the current best
unless a strictly smaller distance appears. -/
noncomputable def pairFold (probe : List ℚ) :
    FaceRecord × ℝ → List FaceRecord → FaceRecord × ℝ
  | p, [] => p
  | p, f :: fs =>
      if euclideanDistance probe f.descriptor < p.2 then
        pairFold probe (f, euclideanDistance probe f.descriptor) fs
      else pairFold probe p fs

/-- Outcome of the matching step (`if (bestMatch && bestDistance < THRESHOLD)`). -/
inductive MatchResult where
  | matched (name : String) (confidence : ℤ)
  | unmatched (bestDistance : ℝ)
  | noCandidates

/-- The matcher: nearest-neighbor scan followed by the threshold test, with
`confidence = Math.round((1 - bestDistance) * 100)`.  (JavaScript `Math.round`
and Mathlib `round` both send `x` to `⌊x + 1/2⌋`.) -/
noncomputable def matchProbe (probe : List ℚ) (faces : List FaceRecord)
    (threshold : ℝ) : MatchResult :=
  match findBest probe faces with
  | none => MatchResult.noCandidates
  | some (b, bd) =>
      if bd < threshold then MatchResult.matched b.name (round ((1 - bd) * 100))
      else MatchResult.unmatched bd

/-- The record built by the register handler:
`{ name: name.trim(), descriptor, registeredAt: now }`. -/
def mkFaceRecord (name : String) (descriptor : List ℚ) (now : String) : FaceRecord :=
  { name := jsTrim name, descriptor := descriptor, registeredAt := now }

/-- The in-memory store update of `app.post('/api/register')`:
`faces.findIndex(f => f.name.toLowerCase() === name.toLowerCase())`, then
replace at that index or push.  Note that the stored name is `name.trim()`
while the lookup compares the *untrimmed* `name`. -/
def upsert (faces : List FaceRecord) (name : String) (descriptor : List ℚ)
    (now : String) : List FaceRecord :=
  match faces.findIdx? (fun f => jsToLower f.name == jsToLower name) with
  | some i => faces.set i (mkFaceRecord name descriptor now)
  | none => faces ++ [mkFaceRecord name descriptor now]

/-- Observable outcome of `app.post('/api/register')`. -/
inductive RegisterResult where
  | validationError
  | noFaceDetected
  | registered (totalRegistered : ℕ)
  deriving Repr, DecidableEq

/-- `app.post('/api/register')`: validate (`!name || !image`), run the
extractor, and on success upsert into the loaded store and save it.
Returns the response outcome and the saved store (unchanged when no save
happens). -/
def register (name : String) (imagePresent : Bool) (ext : ExtractResult)
    (faces : List FaceRecord) (now : String) : RegisterResult × List FaceRecord :=
  if name = "" ∨ imagePresent = false then (RegisterResult.validationError, faces)
  else
    match ext with
    | ExtractResult.notFound => (RegisterResult.noFaceDetected, faces)
    | ExtractResult.found descriptor =>
        let faces' := upsert faces name descriptor now
        (RegisterResult.registered faces'.length, faces')

/-- An attendance-log entry:
`{ name: bestMatch.name, timestamp, confidence: Math.round((1-bestDistance)*100) }`. -/
structure AttendanceEvent where
  name : String
  timestamp : String
  confidence : ℤ
  deriving Repr, DecidableEq

/-- Observable outcome of `app.post('/api/attendance')`. -/
inductive AttendanceOutcome where
  | validationError
  | noFaceDetected
  | noRegisteredFaces
  | marked (name : String) (confidence : ℤ) (timestamp : String)
  | notRecognized
  deriving DecidableEq

/-- `app.post('/api/attendance')`: validate the image, run the extractor
(*before* looking at the store), return 404 on an empty store, otherwise run
the scan with the hard-coded `THRESHOLD = 0.6` and, on a match, append an
`AttendanceEvent` to the attendance log.  Returns the response outcome and
the resulting log. -/
noncomputable def checkIn (imagePresent : Bool) (ext : ExtractResult)
    (faces : List FaceRecord) (log : List AttendanceEvent) (now : String) :
    AttendanceOutcome × List AttendanceEvent :=
  if imagePresent = false then (AttendanceOutcome.validationError, log)
  else
    match ext with
    | ExtractResult.notFound => (AttendanceOutcome.noFaceDetected, log)
    | ExtractResult.found probe =>
        if faces.length = 0 then (AttendanceOutcome.noRegisteredFaces, log)
        else
          match matchProbe probe faces 0.6 with
          | MatchResult.matched nm conf =>
              (AttendanceOutcome.marked nm conf now,
                log ++ [{ name := nm, timestamp := now, confidence := conf }])
          | _ => (AttendanceOutcome.notRecognized, log)

/-- `app.get('/api/faces')`: `{ count: faces.length, faces: faces.map(f =>
({ name: f.name, registeredAt: f.registeredAt })) }`. -/
def listFaces (faces : List FaceRecord) : ℕ × List (String × String) :=
  (faces.length, faces.map fun f => (f.name, f.registeredAt))

/-- One register call, for reasoning about sequences of registrations. -/
structure RegCall where
  name : String
  imagePresent : Bool
  ext : ExtractResult
  now : String

/-- The store produced by a sequence of register calls starting from the
empty store (the state of a fresh `data/faces.json`). -/
def runRegisters (calls : List RegCall) : List FaceRecord :=
  calls.foldl (fun st c => (register c.name c.imagePresent c.ext st c.now).2) []

/-! ## The persisted store: JSON documents (`loadFaces` / `saveFaces`)

`loadFaces` is `JSON.parse` over the file contents (or `[]` when the file
does not exist) and `saveFaces` is `JSON.stringify`.  The document structure
is modelled by a JSON value type and a character-level printer/parser pair;
JavaScript's pretty-printing (`JSON.stringify(…, null, 2)`) only inserts
whitespace, so the printer here emits the compact form — the claim under
study is about *structural* equivalence of the persisted collection, which
whitespace does not affect.  Numeric literals are carried as an integer
mantissa with a count of fraction digits (`num m e` denotes `m / 10^e`),
matching what decimal literals in the store file can denote. -/

/-- A JSON document. -/
inductive Json where
  | null
  | bool (b : Bool)
  | num (m : ℤ) (e : ℕ)
  | str (s : List Char)
  | arr (elems : List Json)
  | obj (fields : List (List Char × Json))

/-- String-body escaping as `JSON.stringify` performs it for the characters
that occur in store documents: `"` and `\` get a backslash. -/
def escapeChars : List Char → List Char
  | [] => []
  | c :: cs => if c = '"' ∨ c = '\\' then '\\' :: c :: escapeChars cs else c :: escapeChars cs

/-- Decimal digits of a natural number, most significant first. -/
def natToDigits (n : ℕ) : List Char :=
  if h : n < 10 then [Nat.digitChar n]
  else natToDigits (n / 10) ++ [Nat.digitChar (n % 10)]
  termination_by n
  decreasing_by exact Nat.div_lt_self (by omega) (by omega)

/-- Exactly `e` fraction digits of `n % 10^e`, zero-padded, most significant
first. -/
def fracDigits : ℕ → ℕ → List Char
  | 0, _ => []
  | e + 1, n => fracDigits e (n / 10) ++ [Nat.digitChar (n % 10)]

/-- Print the numeric literal `m / 10^e`. -/
def printNum (m : ℤ) (e : ℕ) : List Char :=
  (if m < 0 then ['-'] else []) ++ natToDigits (m.natAbs / 10 ^ e) ++
    (if e = 0 then [] else '.' :: fracDigits e m.natAbs)

mutual

/-- `JSON.stringify`, compact form. -/
def printJson : Json → List Char
  | Json.null => ['n', 'u', 'l', 'l']
  | Json.bool true => ['t', 'r', 'u', 'e']
  | Json.bool false => ['f', 'a', 'l', 's', 'e']
  | Json.num m e => printNum m e
  | Json.str s => '"' :: escapeChars s ++ ['"']
  | Json.arr vs => '[' :: printElems vs ++ [']']
  | Json.obj kvs => '{' :: printFields kvs ++ ['}']

/-- Comma-separated array elements. -/
def printElems : List Json → List Char
  | [] => []
  | [v] => printJson v
  | v :: vs => printJson v ++ ',' :: printElems vs

/-- Comma-separated object fields (`"key":value`). -/
def printFields : List (List Char × Json) → List Char
  | [] => []
  | [(k, v)] => '"' :: escapeChars k ++ '"' :: ':' :: printJson v
  | (k, v) :: kvs =>
      ('"' :: escapeChars k ++ '"' :: ':' :: printJson v) ++ ',' :: printFields kvs

end

/-- Consume an expected literal keyword tail. -/
def dropLit : List Char → List Char → Option (List Char)
  | [], input => some input
  | _ :: _, [] => none
  | c :: cs, d :: ds => if d = c then dropLit cs ds else none

/-- Parse a string body after the opening quote, undoing `escapeChars`. -/
def parseStringAux : List Char → Option (List Char × List Char)
  | [] => none
  | c :: cs =>
      if c = '"' then some ([], cs)
      else if c = '\\' then
        match cs with
        | [] => none
        | d :: ds =>
            if d = '"' ∨ d = '\\' then
              (parseStringAux ds).map fun p => (d :: p.1, p.2)
            else none
      else (parseStringAux cs).map fun p => (c :: p.1, p.2)

/-- Split off the longest leading run of decimal digits. -/
def parseDigits : List Char → List Char × List Char
  | [] => ([], [])
  | c :: cs =>
      if c.isDigit then
        ((parseDigits cs).1.cons c, (parseDigits cs).2)
      else ([], c :: cs)

/-- Numeric value of one digit character. -/
def digitVal (c : Char) : ℕ := c.toNat - '0'.toNat

/-- Numeric value of a digit run, most significant first. -/
def digitsVal (ds : List Char) : ℕ :=
  ds.foldl (fun a c => a * 10 + digitVal c) 0

/-- Parse an unsigned numeric literal: integer digits, then an optional
fraction.  Returns the mantissa and the number of fraction digits. -/
def parsePosNum (input : List Char) : Option ((ℕ × ℕ) × List Char) :=
  match parseDigits input with
  | ([], _) => none
  | (d :: ds, rest1) =>
      match rest1 with
      | [] => some ((digitsVal (d :: ds), 0), [])
      | c :: rest2 =>
          if c = '.' then
            match parseDigits rest2 with
            | ([], _) => none
            | (f :: fs, rest3) =>
                some ((digitsVal (d :: ds) * 10 ^ (f :: fs).length + digitsVal (f :: fs),
                  (f :: fs).length), rest3)
          else some ((digitsVal (d :: ds), 0), c :: rest2)

/-- Parse a signed numeric literal. -/
def parseNum (input : List Char) : Option ((ℤ × ℕ) × List Char) :=
  match input with
  | [] => none
  | c :: cs =>
      if c = '-' then
        (parsePosNum cs).map fun p => ((-(p.1.1 : ℤ), p.1.2), p.2)
      else (parsePosNum (c :: cs)).map fun p => (((p.1.1 : ℤ), p.1.2), p.2)

mutual

/-- `JSON.parse`, fuelled (each recursive call burns one unit; a fuel of
`input length + 1` is always enough, see the round-trip proof). -/
def parseValue : ℕ → List Char → Option (Json × List Char)
  | 0, _ => none
  | fuel + 1, input =>
      match input with
      | [] => none
      | c :: cs =>
          if c = 'n' then (dropLit ['u', 'l', 'l'] cs).map fun rest => (Json.null, rest)
          else if c = 't' then (dropLit ['r', 'u', 'e'] cs).map fun rest => (Json.bool true, rest)
          else if c = 'f' then
            (dropLit ['a', 'l', 's', 'e'] cs).map fun rest => (Json.bool false, rest)
          else if c = '"' then (parseStringAux cs).map fun p => (Json.str p.1, p.2)
          else if c = '[' then
            match cs with
            | [] => none
            | c1 :: cs1 =>
                if c1 = ']' then some (Json.arr [], cs1)
                else (parseElems fuel (c1 :: cs1)).map fun p => (Json.arr p.1, p.2)
          else if c = '{' then
            match cs with
            | [] => none
            | c1 :: cs1 =>
                if c1 = '}' then some (Json.obj [], cs1)
                else (parseFields fuel (c1 :: cs1)).map fun p => (Json.obj p.1, p.2)
          else if c = '-' ∨ c.isDigit then
            (parseNum (c :: cs)).map fun p => (Json.num p.1.1 p.1.2, p.2)
          else none

/-- Parse one or more comma-separated array elements up to `]`. -/
def parseElems : ℕ → List Char → Option (List Json × List Char)
  | 0, _ => none
  | fuel + 1, input =>
      match parseValue fuel input with
      | none => none
      | some (v, rest) =>
          match rest with
          | [] => none
          | c :: rest2 =>
              if c = ',' then (parseElems fuel rest2).map fun p => (v :: p.1, p.2)
              else if c = ']' then some ([v], rest2)
              else none

/-- Parse one or more comma-separated object fields up to `}`. -/
def parseFields : ℕ → List Char → Option (List (List Char × Json) × List Char)
  | 0, _ => none
  | fuel + 1, input =>
      match input with
      | [] => none
      | c :: cs =>
          if c = '"' then
            match parseStringAux cs with
            | none => none
            | some (key, rest1) =>
                match rest1 with
                | [] => none
                | c1 :: rest2 =>
                    if c1 = ':' then
                      match parseValue fuel rest2 with
                      | none => none
                      | some (v, rest3) =>
                          match rest3 with
                          | [] => none
                          | c2 :: rest4 =>
                              if c2 = ',' then
                                (parseFields fuel rest4).map fun p => ((key, v) :: p.1, p.2)
                              else if c2 = '}' then some ([(key, v)], rest4)
                              else none
                    else none
          else none

end

/-- The remaining input does not start with a digit (so a digit run just
parsed cannot be extended). -/
def notDigitStart : List Char → Prop
  | [] => True
  | c :: _ => c.isDigit = false

/-- The remaining input cannot extend a numeric literal: it starts neither
with a digit nor with a decimal point.  Every printed context satisfies
this (a value is followed by `,`, `]`, `}` or the end of the document). -/
def delim : List Char → Prop
  | [] => True
  | c :: _ => c.isDigit = false ∧ c ≠ '.'

/-- `JSON.parse` over a whole document: the value must consume the input. -/
def parseJson (s : List Char) : Option Json :=
  match parseValue (s.length + 1) s with
  | some (v, []) => some v
  | _ => none

/-- `saveFaces(faces)`: `JSON.stringify` of the collection. -/
def saveFaces (j : Json) : List Char := printJson j

/-- `loadFaces()`: an absent file yields the empty collection, otherwise the
file contents are parsed (`JSON.parse` throws — here `none` — on corrupt
contents). -/
def loadFaces : Option (List Char) → Option Json
  | none => some (Json.arr [])
  | some s => parseJson s

/-! ## Characterisation of `findIdx?` (JavaScript `findIndex`) -/

/-- If `findIdx?` returns `some i`, then `i` is in range, the predicate holds
at `i`, and fails at every earlier index (first match wins, as with
JavaScript `Array.prototype.findIndex`). -/
theorem findIdx?_some_spec {α : Type} [Inhabited α] (p : α → Bool) :
    ∀ (l : List α) (i : ℕ), l.findIdx? p = some i →
      i < l.length ∧ p (l.getD i default) = true ∧
        ∀ j, j < i → p (l.getD j default) = false := by
  intro l
  induction l with
  | nil => intro i h; simp [List.findIdx?_nil] at h
  | cons x xs ih =>
      intro i h
      rw [List.findIdx?_cons] at h
      by_cases hp : p x = true
      · rw [if_pos hp] at h
        cases h
        exact ⟨Nat.succ_pos _, by simpa using hp, fun j hj => absurd hj (Nat.not_lt_zero j)⟩
      · rw [if_neg hp] at h
        rw [List.findIdx?_succ] at h
        rcases Option.map_eq_some'.mp h with ⟨i', hi', rfl⟩
        rcases ih i' hi' with ⟨hlt, hat, hbefore⟩
        refine ⟨by simpa using Nat.succ_lt_succ hlt, by simpa using hat, ?_⟩
        intro j hj
        cases j with
        | zero => simpa using eq_false_of_ne_true hp
        | succ k =>
            rw [List.getD_cons_succ]
            exact hbefore k (Nat.lt_of_succ_lt_succ hj)

/-! ## C3: upsert replaces in place or appends -/

/-- C3: if some record's name matches the registered `name` case-insensitively
(as compared by the handler, i.e. on the *untrimmed* input), `upsert` replaces
the first such record in place — same position, total count unchanged;
if no record matches, it appends the new record at the end. -/
theorem C3_upsert_replace_or_append (faces : List FaceRecord) (name : String)
    (descriptor : List ℚ) (now : String) :
    ((∃ f ∈ faces, jsToLower f.name = jsToLower name) →
      ∃ i, i < faces.length ∧
        jsToLower ((faces.getD i default).name) = jsToLower name ∧
        (∀ j, j < i → jsToLower ((faces.getD j default).name) ≠ jsToLower name) ∧
        upsert faces name descriptor now =
          faces.set i (mkFaceRecord name descriptor now) ∧
        (upsert faces name descriptor now).length = faces.length) ∧
    ((∀ f ∈ faces, jsToLower f.name ≠ jsToLower name) →
      upsert faces name descriptor now = faces ++ [mkFaceRecord name descriptor now]) := by
  constructor
  · intro hex
    rcases hidx : faces.findIdx? (fun f => jsToLower f.name == jsToLower name) with _ | i
    · exfalso
      rcases hex with ⟨f, hf, hname⟩
      have := List.findIdx?_eq_none_iff.mp hidx f hf
      rw [hname] at this
      simp at this
    · rcases findIdx?_some_spec _ faces i hidx with ⟨hlt, hat, hbefore⟩
      refine ⟨i, hlt, by simpa using hat, ?_, ?_, ?_⟩
      · intro j hj
        have := hbefore j hj
        simpa using this
      · unfold upsert
        rw [hidx]
      · unfold upsert
        rw [hidx]
        exact List.length_set faces _ _
  · intro hall
    unfold upsert
    rcases hidx : faces.findIdx? (fun f => jsToLower f.name == jsToLower name) with _ | i
    · rw [hidx]
    · exfalso
      rcases findIdx?_some_spec _ faces i hidx with ⟨hlt, hat, -⟩
      have hmem : faces.getD i default ∈ faces := by
        rw [List.getD_eq_getElem faces default hlt]
        exact List.getElem_mem hlt
      exact hall _ hmem (by simpa using hat)

/-- C3 witness: a case-insensitive match (`"ALICE"` over stored `"Alice"`)
is replaced in place, and a fresh name (`"Bob"`) is appended. -/
theorem C3_witness :
    (∃ i, i < 1 ∧
      jsToLower ((([⟨"Alice", [1], "t0"⟩] : List FaceRecord).getD i default).name) =
        jsToLower "ALICE" ∧
      (∀ j, j < i →
        jsToLower ((([⟨"Alice", [1], "t0"⟩] : List FaceRecord).getD j default).name) ≠
          jsToLower "ALICE") ∧
      upsert [⟨"Alice", [1], "t0"⟩] "ALICE" [2] "t1" =
        ([⟨"Alice", [1], "t0"⟩] : List FaceRecord).set i (mkFaceRecord "ALICE" [2] "t1") ∧
      (upsert [⟨"Alice", [1], "t0"⟩] "ALICE" [2] "t1").length = 1) ∧
    upsert [⟨"Alice", [1], "t0"⟩] "Bob" [2] "t1" =
      [⟨"Alice", [1], "t0"⟩] ++ [mkFaceRecord "Bob" [2] "t1"] := by
  constructor
  · exact (C3_upsert_replace_or_append [⟨"Alice", [1], "t0"⟩] "ALICE" [2] "t1").1
      ⟨⟨"Alice", [1], "t0"⟩, by decide, by decide⟩
  · exact (C3_upsert_replace_or_append [⟨"Alice", [1], "t0"⟩] "Bob" [2] "t1").2
      (by decide)

/-! ## C2 / C7: what sequences of registrations can put in the store -/

/-- Setting index `i` of a list to the value it already holds is a no-op. -/
theorem set_getElem_self {α : Type} :
    ∀ (l : List α) (i : ℕ) (a : α), (h : i < l.length) → l[i] = a → l.set i a = l := by
  intro l
  induction l with
  | nil => intro i a h; exact absurd h (by simp)
  | cons x xs ih =>
      intro i a h hv
      cases i with
      | zero => simpa using hv.symm
      | succ k =>
          simp only [List.set_cons_succ]
          rw [ih k a (by simpa using h) (by simpa using hv)]

/-- `upsert` preserves "all lowered names distinct", provided the incoming
`name` is already trimmed (so the stored `name.trim()` matches what the
lookup compared against). -/
theorem upsert_nodup_lower (faces : List FaceRecord) (name : String)
    (descriptor : List ℚ) (now : String) (hn : jsTrim name = name)
    (hnd : (faces.map fun f => jsToLower f.name).Nodup) :
    ((upsert faces name descriptor now).map fun f => jsToLower f.name).Nodup := by
  unfold upsert
  rcases hidx : faces.findIdx? (fun f => jsToLower f.name == jsToLower name) with _ | i
  · have hnotin : jsToLower name ∉ faces.map fun f => jsToLower f.name := by
      intro hmem
      rcases List.mem_map.mp hmem with ⟨f, hf, hfeq⟩
      have := List.findIdx?_eq_none_iff.mp hidx f hf
      rw [hfeq] at this
      simp at this
    rw [hidx]
    rw [List.map_append]
    rw [List.nodup_append]
    refine ⟨hnd, by simp, ?_⟩
    intro a ha hb
    simp only [List.map_cons, List.map_nil, List.mem_singleton] at hb
    rw [hb] at ha
    have : jsToLower (mkFaceRecord name descriptor now).name = jsToLower name := by
      unfold mkFaceRecord
      rw [hn]
    rw [this] at ha
    exact hnotin ha
  · rcases findIdx?_some_spec _ faces i hidx with ⟨hlt, hat, -⟩
    rw [hidx]
    rw [List.map_set]
    have hlt2 : i < (faces.map fun f => jsToLower f.name).length := by simpa using hlt
    have hval : jsToLower (mkFaceRecord name descriptor now).name =
        (faces.map fun f => jsToLower f.name)[i] := by
      rw [List.getElem_map]
      have hmatch : jsToLower (faces[i]).name = jsToLower name := by
        have := hat
        rw [List.getD_eq_getElem faces default hlt] at this
        simpa using this
      unfold mkFaceRecord
      rw [hn, hmatch]
    rw [set_getElem_self _ i _ hlt2 hval.symm]
    exact hnd

/-- C2 counterexample: registering `"Alice"` and then `"Alice "` (trailing
space) produces two records both stored as `"Alice"` — the lookup compares
the untrimmed input, so the second call appends instead of replacing,
violating "at most one record per case-insensitive name". -/
theorem C2_counterexample_trailing_space :
    ((runRegisters [⟨"Alice", true, ExtractResult.found [1], "t0"⟩,
        ⟨"Alice ", true, ExtractResult.found [2], "t1"⟩]).map fun f => f.name) =
      ["Alice", "Alice"] ∧
    ¬ ((runRegisters [⟨"Alice", true, ExtractResult.found [1], "t0"⟩,
        ⟨"Alice ", true, ExtractResult.found [2], "t1"⟩]).map
          fun f => jsToLower f.name).Nodup := by
  constructor
  · decide
  · decide

/-- C2 amended: for every sequence of registrations starting from the empty
store, *whose input names carry no leading/trailing whitespace*, the store
never holds two records with names equal up to case.  (Without the
trimmed-input proviso the invariant fails, see the counterexample.) -/
theorem C2_amended_nodup_of_trimmed (calls : List RegCall)
    (h : ∀ c ∈ calls, jsTrim c.name = c.name) :
    ((runRegisters calls).map fun f => jsToLower f.name).Nodup := by
  unfold runRegisters
  suffices haux : ∀ (cs : List RegCall) (st : List FaceRecord),
      (∀ c ∈ cs, jsTrim c.name = c.name) →
      ((st.map fun f => jsToLower f.name).Nodup) →
      ((cs.foldl (fun st c => (register c.name c.imagePresent c.ext st c.now).2) st).map
        fun f => jsToLower f.name).Nodup by
    exact haux calls [] h (by simp)
  intro cs
  induction cs with
  | nil => intro st _ hst; simpa using hst
  | cons c cs ih =>
      intro st hcs hst
      simp only [List.foldl_cons]
      refine ih _ (fun c' hc' => hcs c' (List.mem_cons_of_mem c hc')) ?_
      have hc : jsTrim c.name = c.name := hcs c (List.mem_cons_self c cs)
      unfold register
      by_cases hval : c.name = "" ∨ c.imagePresent = false
      · rw [if_pos hval]
        exact hst
      · rw [if_neg hval]
        cases c.ext with
        | notFound => exact hst
        | found descriptor => exact upsert_nodup_lower st c.name descriptor c.now hc hst

/-- C2 witness: a concrete trimmed-name run (`"Alice"`, `"ALICE"`, `"Bob"`). -/
theorem C2_witness :
    (∀ c ∈ [(⟨"Alice", true, ExtractResult.found [1], "t0"⟩ : RegCall),
        ⟨"ALICE", true, ExtractResult.found [2], "t1"⟩,
        ⟨"Bob", true, ExtractResult.found [3], "t2"⟩], jsTrim c.name = c.name) ∧
    ((runRegisters [⟨"Alice", true, ExtractResult.found [1], "t0"⟩,
        ⟨"ALICE", true, ExtractResult.found [2], "t1"⟩,
        ⟨"Bob", true, ExtractResult.found [3], "t2"⟩]).map
      fun f => jsToLower f.name).Nodup :=
  ⟨by decide, C2_amended_nodup_of_trimmed _ (by decide)⟩

/-- C7 counterexample: the name `" "` passes the `!name` check (it is a
non-empty, truthy string), the extractor succeeds, and the stored record's
name is `" ".trim() = ""` — a record with an empty name enters the store
through a successful register call. -/
theorem C7_counterexample_whitespace_name :
    (register " " true (ExtractResult.found [1]) [] "t").1 =
      RegisterResult.registered 1 ∧
    ∃ f ∈ (register " " true (ExtractResult.found [1]) [] "t").2, f.name = "" := by
  constructor
  · decide
  · decide

/-- C7 amended: a successful register call stores a record with a non-empty
name *provided the input name is non-blank* (`name.trim() ≠ ""`); the
`!name` validation only rejects the empty string, so whitespace-only names
slip through and are stored as `""`. -/
theorem C7_amended_nonempty_names (name : String) (imagePresent : Bool)
    (ext : ExtractResult) (faces : List FaceRecord) (now : String)
    (hstore : ∀ f ∈ faces, f.name ≠ "") (hname : jsTrim name ≠ "") :
    ∀ f ∈ (register name imagePresent ext faces now).2, f.name ≠ "" := by
  unfold register
  by_cases hval : name = "" ∨ imagePresent = false
  · rw [if_pos hval]
    exact hstore
  · rw [if_neg hval]
    cases ext with
    | notFound => exact hstore
    | found descriptor =>
        intro f hf
        simp only at hf
        unfold upsert at hf
        rcases hidx : faces.findIdx? (fun f => jsToLower f.name == jsToLower name) with _ | i
        · rw [hidx] at hf
          rcases List.mem_append.mp hf with hf | hf
          · exact hstore f hf
          · rcases List.mem_singleton.mp hf with rfl
            exact hname
        · rw [hidx] at hf
          rcases List.mem_or_eq_of_mem_set hf with hf | rfl
          · exact hstore f hf
          · exact hname

/-- C7 witness: a register call with a non-blank name over a clean store;
the record it appends carries a non-empty name. -/
theorem C7_witness :
    (⟨"Bob", [1], "t1"⟩ : FaceRecord) ∈
      (register "Bob" true (ExtractResult.found [1]) [⟨"Alice", [0], "t0"⟩] "t1").2 ∧
    (⟨"Bob", [1], "t1"⟩ : FaceRecord).name ≠ "" :=
  ⟨by decide,
    C7_amended_nonempty_names "Bob" true (ExtractResult.found [1])
      [⟨"Alice", [0], "t0"⟩] "t1" (by decide) (by decide) ⟨"Bob", [1], "t1"⟩ (by decide)⟩

/-! ## C4: attendance against an empty store -/

/-- C4 counterexample: the claim says `checkIn` on an empty store returns
`NoRegisteredFaces` regardless of extractor output, but the handler checks
the extractor result first, so extractor `NotFound` yields `NoFaceDetected`
even when the store is empty. -/
theorem C4_counterexample_notFound_beats_emptyStore :
    (checkIn true ExtractResult.notFound [] [] "t").1 =
      AttendanceOutcome.noFaceDetected ∧
    (checkIn true ExtractResult.notFound [] [] "t").1 ≠
      AttendanceOutcome.noRegisteredFaces := by
  constructor
  · rfl
  · intro h
    exact AttendanceOutcome.noConfusion h

/-- C4 amended: `checkIn` on an empty store returns `NoRegisteredFaces`
whenever the extractor produces a signature; when the extractor reports
`NotFound` the result is `NoFaceDetected` (the extractor is consulted before
the store). -/
theorem C4_amended_empty_store (probe : List ℚ) (log : List AttendanceEvent)
    (now : String) :
    (checkIn true (ExtractResult.found probe) [] log now).1 =
      AttendanceOutcome.noRegisteredFaces ∧
    (checkIn true ExtractResult.notFound [] log now).1 =
      AttendanceOutcome.noFaceDetected := by
  exact ⟨rfl, rfl⟩

/-! ## C6: register with extractor NotFound -/

/-- C6: when the extractor reports `NotFound` on a register call (so the
request passed validation and the extractor was actually consulted), the
result is `NoFaceDetected` and the store is returned unchanged — no record
is inserted, replaced or removed, and no save happens. -/
theorem C6_register_notFound_leaves_store (name : String)
    (faces : List FaceRecord) (now : String) (hname : name ≠ "") :
    register name true ExtractResult.notFound faces now =
      (RegisterResult.noFaceDetected, faces) := by
  unfold register
  rw [if_neg]
  simp [hname]

/-- C6 witness: a concrete register call with extractor `NotFound`. -/
theorem C6_witness :
    register "Alice" true ExtractResult.notFound
        [⟨"Bob", [1], "t0"⟩] "t1" =
      (RegisterResult.noFaceDetected, [⟨"Bob", [1], "t0"⟩]) :=
  C6_register_notFound_leaves_store "Alice" [⟨"Bob", [1], "t0"⟩] "t1" (by decide)

/-! ## C9: the faces listing never depends on descriptors -/

/-- C9: `app.get('/api/faces')` exposes only names and registration times;
any two stores that agree on every record's `name` and `registeredAt`
(but may differ arbitrarily in descriptors) produce the same response. -/
theorem C9_listFaces_ignores_descriptors (s1 s2 : List FaceRecord)
    (h : s1.map (fun f => (f.name, f.registeredAt)) =
         s2.map (fun f => (f.name, f.registeredAt))) :
    listFaces s1 = listFaces s2 := by
  unfold listFaces
  have hlen : s1.length = s2.length := by
    have := congrArg List.length h
    simpa using this
  rw [hlen, h]

/-! ## C1: the matcher is a stable nearest-neighbor scan with a strict
threshold -/

/-- Unfolding equation for `pairFold` on a cons cell. -/
theorem pairFold_cons_eq (probe : List ℚ) (p : FaceRecord × ℝ) (f : FaceRecord)
    (fs : List FaceRecord) :
    pairFold probe p (f :: fs) =
      if euclideanDistance probe f.descriptor < p.2 then
        pairFold probe (f, euclideanDistance probe f.descriptor) fs
      else pairFold probe p fs := by
  conv_lhs => unfold pairFold

/-- Once the accumulator is `some`, the fold is `pairFold`. -/
theorem foldl_scanStep_some (probe : List ℚ) :
    ∀ (fs : List FaceRecord) (p : FaceRecord × ℝ),
      fs.foldl (scanStep probe) (some p) = some (pairFold probe p fs) := by
  intro fs
  induction fs with
  | nil => intro p; rfl
  | cons f fs ih =>
      intro p
      rcases p with ⟨b, bd⟩
      rw [List.foldl_cons]
      by_cases hd : euclideanDistance probe f.descriptor < bd
      · have h1 : scanStep probe (some (b, bd)) f =
            some (f, euclideanDistance probe f.descriptor) := by
          unfold scanStep
          simp [hd]
        rw [h1, ih, pairFold_cons_eq]
        simp [hd]
      · have h1 : scanStep probe (some (b, bd)) f = some (b, bd) := by
          unfold scanStep
          simp [hd]
        rw [h1, ih, pairFold_cons_eq]
        simp [hd]

/-- The scan over a non-empty list: the first candidate seeds the
accumulator (its distance always beats the initial `Infinity`). -/
theorem findBest_cons (probe : List ℚ) (f : FaceRecord) (fs : List FaceRecord) :
    findBest probe (f :: fs) = some (pairFold probe (pairOf probe f) fs) := by
  unfold findBest
  rw [List.foldl_cons]
  exact foldl_scanStep_some probe fs (pairOf probe f)

/-- `getD` through `map (pairOf probe)`. -/
theorem getD_map_pairOf (probe : List ℚ) (l : List FaceRecord) (j : ℕ)
    (h : j < l.length) :
    (l.map (pairOf probe)).getD j default = pairOf probe (l.getD j default) := by
  rw [List.getD_eq_getElem l default h]
  rw [List.getD_eq_getElem _ default (by simpa using h)]
  exact List.getElem_map (pairOf probe)

/-- `pairFold` returns the first pair attaining the minimum distance among
the seed and all scanned candidates. -/
theorem pairFold_spec (probe : List ℚ) :
    ∀ (fs : List FaceRecord) (p : FaceRecord × ℝ),
      ∃ i, i < (p :: fs.map (pairOf probe)).length ∧
        pairFold probe p fs = (p :: fs.map (pairOf probe)).getD i default ∧
        (∀ j, j < (p :: fs.map (pairOf probe)).length →
          (pairFold probe p fs).2 ≤ ((p :: fs.map (pairOf probe)).getD j default).2) ∧
        (∀ j, j < i →
          (pairFold probe p fs).2 < ((p :: fs.map (pairOf probe)).getD j default).2) := by
  intro fs
  induction fs with
  | nil =>
      intro p
      refine ⟨0, by simp, rfl, ?_, by omega⟩
      intro j hj
      have hj0 : j = 0 := by
        simp only [List.length_cons, List.map_nil, List.length_nil] at hj
        omega
      subst hj0
      exact le_refl _
  | cons f fs ih =>
      intro p
      have hunf : pairFold probe p (f :: fs) =
          if euclideanDistance probe f.descriptor < p.2 then
            pairFold probe (f, euclideanDistance probe f.descriptor) fs
          else pairFold probe p fs := by
        conv_lhs => unfold pairFold
      by_cases hd : euclideanDistance probe f.descriptor < p.2
      · rw [if_pos hd] at hunf
        rcases ih (f, euclideanDistance probe f.descriptor) with ⟨i', hi', heq, hmin, hstrict⟩
        refine ⟨i' + 1, ?_, ?_, ?_, ?_⟩
        · simpa using Nat.succ_lt_succ (by simpa using hi')
        · rw [hunf, List.map_cons, List.getD_cons_succ]
          exact heq
        · intro j hj
          rw [hunf]
          cases j with
          | zero =>
              rw [List.getD_cons_zero]
              calc (pairFold probe (f, euclideanDistance probe f.descriptor) fs).2
                  ≤ ((( f, euclideanDistance probe f.descriptor) ::
                      fs.map (pairOf probe)).getD 0 default).2 :=
                    hmin 0 (by simp)
                _ ≤ p.2 := le_of_lt (by simpa using hd)
          | succ k =>
              rw [List.map_cons, List.getD_cons_succ]
              exact hmin k (by simpa using Nat.lt_of_succ_lt_succ (by simpa using hj))
        · intro j hj
          rw [hunf]
          cases j with
          | zero =>
              rw [List.getD_cons_zero]
              calc (pairFold probe (f, euclideanDistance probe f.descriptor) fs).2
                  ≤ ((( f, euclideanDistance probe f.descriptor) ::
                      fs.map (pairOf probe)).getD 0 default).2 :=
                    hmin 0 (by simp)
                _ < p.2 := by simpa using hd
          | succ k =>
              rw [List.map_cons, List.getD_cons_succ]
              exact hstrict k (Nat.lt_of_succ_lt_succ hj)
      · rw [if_neg hd] at hunf
        have hple : p.2 ≤ euclideanDistance probe f.descriptor := le_of_not_lt hd
        rcases ih p with ⟨i', hi', heq, hmin, hstrict⟩
        have hresle : (pairFold probe p fs).2 ≤ p.2 := by
          have := hmin 0 (by simp)
          simpa using this
        cases i' with
        | zero =>
            refine ⟨0, by simp, ?_, ?_, by omega⟩
            · rw [hunf, List.getD_cons_zero]
              simpa using heq
            · intro j hj
              rw [hunf]
              cases j with
              | zero => rw [List.getD_cons_zero]; exact hresle
              | succ k =>
                  rw [List.map_cons, List.getD_cons_succ]
                  cases k with
                  | zero =>
                      rw [List.getD_cons_zero]
                      exact le_trans hresle (by simpa using hple)
                  | succ m =>
                      rw [List.getD_cons_succ]
                      have := hmin (m + 1) (by
                        simp only [List.length_cons, List.length_map] at hj ⊢
                        omega)
                      rw [List.getD_cons_succ] at this
                      exact this
        | succ k =>
            have hres_lt_p : (pairFold probe p fs).2 < p.2 := by
              have := hstrict 0 (Nat.succ_pos k)
              simpa using this
            refine ⟨k + 2, ?_, ?_, ?_, ?_⟩
            · simp only [List.length_cons, List.length_map] at hi' ⊢
              omega
            · rw [hunf, List.map_cons, List.getD_cons_succ, List.getD_cons_succ]
              rw [heq, List.getD_cons_succ]
            · intro j hj
              rw [hunf]
              cases j with
              | zero => rw [List.getD_cons_zero]; exact le_of_lt hres_lt_p
              | succ m =>
                  rw [List.map_cons, List.getD_cons_succ]
                  cases m with
                  | zero =>
                      rw [List.getD_cons_zero]
                      exact le_trans (le_of_lt hres_lt_p) (by simpa using hple)
                  | succ m' =>
                      rw [List.getD_cons_succ]
                      have := hmin (m' + 1) (by
                        simp only [List.length_cons, List.length_map] at hj ⊢
                        omega)
                      rw [List.getD_cons_succ] at this
                      exact this
            · intro j hj
              rw [hunf]
              cases j with
              | zero => rw [List.getD_cons_zero]; exact hres_lt_p
              | succ m =>
                  rw [List.map_cons, List.getD_cons_succ]
                  cases m with
                  | zero =>
                      rw [List.getD_cons_zero]
                      exact lt_of_lt_of_le hres_lt_p (by simpa using hple)
                  | succ m' =>
                      rw [List.getD_cons_succ]
                      have := hstrict (m' + 1) (by omega)
                      rw [List.getD_cons_succ] at this
                      exact this

/-- C1: for every probe, non-empty candidate list and threshold, the matcher
computes the Euclidean distance to every candidate, selects the first
candidate attaining the minimum distance (stable scan, strict-`<` update),
and returns `Matched{name, round((1-d)*100)}` exactly when that minimum
distance is strictly below the threshold, otherwise `Unmatched` carrying the
best distance. -/
theorem C1_matcher_nearest_neighbor (probe : List ℚ) (faces : List FaceRecord)
    (threshold : ℝ) (hne : faces ≠ []) :
    ∃ i, i < faces.length ∧
      (∀ j, j < faces.length →
        euclideanDistance probe (faces.getD i default).descriptor ≤
          euclideanDistance probe (faces.getD j default).descriptor) ∧
      (∀ j, j < i →
        euclideanDistance probe (faces.getD i default).descriptor <
          euclideanDistance probe (faces.getD j default).descriptor) ∧
      matchProbe probe faces threshold =
        (if euclideanDistance probe (faces.getD i default).descriptor < threshold then
          MatchResult.matched (faces.getD i default).name
            (round ((1 - euclideanDistance probe (faces.getD i default).descriptor) * 100))
        else
          MatchResult.unmatched
            (euclideanDistance probe (faces.getD i default).descriptor)) := by
  rcases List.exists_cons_of_ne_nil hne with ⟨f, fs, rfl⟩
  rcases pairFold_spec probe fs (pairOf probe f) with ⟨i, hi, heq, hmin, hstrict⟩
  have hlist : (pairOf probe f :: fs.map (pairOf probe)) =
      (f :: fs).map (pairOf probe) := by rw [List.map_cons]
  rw [hlist] at hi heq hmin hstrict
  have hlen : ((f :: fs).map (pairOf probe)).length = (f :: fs).length := by
    rw [List.length_map]
  rw [hlen] at hi hmin
  have hconv : ∀ j, j < (f :: fs).length →
      ((f :: fs).map (pairOf probe)).getD j default =
        pairOf probe ((f :: fs).getD j default) :=
    fun j hj => getD_map_pairOf probe (f :: fs) j hj
  refine ⟨i, hi, ?_, ?_, ?_⟩
  · intro j hj
    have := hmin j hj
    rw [heq, hconv i hi, hconv j hj] at this
    exact this
  · intro j hj
    have := hstrict j hj
    rw [heq, hconv i hi, hconv j (lt_trans hj hi)] at this
    exact this
  · have hfb : findBest probe (f :: fs) =
        some (pairOf probe ((f :: fs).getD i default)) := by
      rw [findBest_cons, heq, hconv i hi]
    unfold matchProbe
    rw [hfb]
    rfl

/-- C1 witness: probe `[0,0]` against candidates `A = [3,4]` (distance 5)
and `B = [0,0]` (distance 0), threshold `0.6`. -/
theorem C1_witness :
    ∃ i, i < ([⟨"A", [3, 4], "tA"⟩, ⟨"B", [0, 0], "tB"⟩] : List FaceRecord).length ∧
      (∀ j, j < ([⟨"A", [3, 4], "tA"⟩, ⟨"B", [0, 0], "tB"⟩] : List FaceRecord).length →
        euclideanDistance [0, 0]
            (([⟨"A", [3, 4], "tA"⟩, ⟨"B", [0, 0], "tB"⟩] : List FaceRecord).getD i
              default).descriptor ≤
          euclideanDistance [0, 0]
            (([⟨"A", [3, 4], "tA"⟩, ⟨"B", [0, 0], "tB"⟩] : List FaceRecord).getD j
              default).descriptor) ∧
      (∀ j, j < i →
        euclideanDistance [0, 0]
            (([⟨"A", [3, 4], "tA"⟩, ⟨"B", [0, 0], "tB"⟩] : List FaceRecord).getD i
              default).descriptor <
          euclideanDistance [0, 0]
            (([⟨"A", [3, 4], "tA"⟩, ⟨"B", [0, 0], "tB"⟩] : List FaceRecord).getD j
              default).descriptor) ∧
      matchProbe [0, 0] [⟨"A", [3, 4], "tA"⟩, ⟨"B", [0, 0], "tB"⟩] 0.6 =
        (if euclideanDistance [0, 0]
            (([⟨"A", [3, 4], "tA"⟩, ⟨"B", [0, 0], "tB"⟩] : List FaceRecord).getD i
              default).descriptor < 0.6 then
          MatchResult.matched
            (([⟨"A", [3, 4], "tA"⟩, ⟨"B", [0, 0], "tB"⟩] : List FaceRecord).getD i
              default).name
            (round ((1 - euclideanDistance [0, 0]
              (([⟨"A", [3, 4], "tA"⟩, ⟨"B", [0, 0], "tB"⟩] : List FaceRecord).getD i
                default).descriptor) * 100))
        else
          MatchResult.unmatched
            (euclideanDistance [0, 0]
              (([⟨"A", [3, 4], "tA"⟩, ⟨"B", [0, 0], "tB"⟩] : List FaceRecord).getD i
                default).descriptor)) :=
  C1_matcher_nearest_neighbor [0, 0] [⟨"A", [3, 4], "tA"⟩, ⟨"B", [0, 0], "tB"⟩] 0.6
    (by simp)

/-! ## Concrete evaluation helpers -/

/-- `pairFold` on the empty tail returns the accumulator. -/
theorem pairFold_nil (probe : List ℚ) (p : FaceRecord × ℝ) :
    pairFold probe p [] = p := rfl

/-- The scan over a single candidate returns that candidate with its
distance. -/
theorem findBest_singleton (probe : List ℚ) (f : FaceRecord) :
    findBest probe [f] = some (pairOf probe f) := by
  rw [findBest_cons, pairFold_nil]

/-- Evaluate `euclideanDistance` on concrete inputs whose squared-distance
sum is a perfect square of a rational. -/
theorem euclideanDistance_eval (d1 d2 : List ℚ) (q r : ℚ) (hq : sqSum d1 d2 = q)
    (hr : 0 ≤ r) (hrq : r * r = q) : euclideanDistance d1 d2 = (r : ℝ) := by
  unfold euclideanDistance
  rw [hq]
  have hcast : ((q : ℚ) : ℝ) = ((r : ℚ) : ℝ) ^ 2 := by
    rw [← hrq]
    push_cast
    ring
  rw [hcast]
  exact Real.sqrt_sq (by exact_mod_cast hr)

/-! ## C5: no DimensionMismatch — the distance loop silently truncates -/

/-- C5 counterexample: with a probe of length 1 and a candidate signature of
length 2, the matcher does not fail: the loop only visits the probe's
indices, computes distance `0` (although the vectors differ in the second
coordinate), and happily reports a full-confidence match. -/
theorem C5_counterexample_silent_truncation :
    euclideanDistance [0] [0, 3] = 0 ∧
    matchProbe [0] [⟨"A", [0, 3], "t"⟩] 0.6 = MatchResult.matched "A" 100 := by
  have hd : euclideanDistance [0] [0, 3] = ((0 : ℚ) : ℝ) :=
    euclideanDistance_eval [0] [0, 3] 0 0
      (by unfold sqSum; norm_num [List.range_succ]) le_rfl (by norm_num)
  have hd0 : euclideanDistance [0] [0, 3] = (0 : ℝ) := by simpa using hd
  refine ⟨hd0, ?_⟩
  have hp : pairOf [0] (⟨"A", [0, 3], "t"⟩ : FaceRecord) =
      ((⟨"A", [0, 3], "t"⟩ : FaceRecord), (0 : ℝ)) := by
    unfold pairOf
    rw [hd0]
  have hfb : findBest [0] [(⟨"A", [0, 3], "t"⟩ : FaceRecord)] =
      some ((⟨"A", [0, 3], "t"⟩ : FaceRecord), (0 : ℝ)) := by
    rw [findBest_singleton, hp]
  unfold matchProbe
  rw [hfb]
  show (if (0 : ℝ) < 0.6 then
      MatchResult.matched "A" (round ((1 - (0 : ℝ)) * 100))
    else MatchResult.unmatched (0 : ℝ)) = MatchResult.matched "A" 100
  rw [if_pos (by norm_num : (0 : ℝ) < 0.6)]
  norm_num [round_eq]

/-- C5 amended: `euclideanDistance` has no failure path at all; on a length
mismatch with `probe.length ≤ candidate.length` (the direction whose
JavaScript arithmetic stays `NaN`-free) it silently truncates the candidate
to the probe's length. -/
theorem C5_amended_silently_truncates (d1 d2 : List ℚ) (h : d1.length ≤ d2.length) :
    euclideanDistance d1 d2 = euclideanDistance d1 (d2.take d1.length) := by
  unfold euclideanDistance
  have hsum : sqSum d1 d2 = sqSum d1 (d2.take d1.length) := by
    unfold sqSum
    refine congrArg List.sum (List.map_congr_left ?_)
    intro i hi
    rw [List.mem_range] at hi
    have htake : (d2.take d1.length).getD i 0 = d2.getD i 0 := by
      rw [List.getD_eq_getElem?_getD, List.getD_eq_getElem?_getD,
        List.getElem?_take, if_pos hi]
    rw [htake]
  rw [hsum]

/-- C5 amended witness: at the counterexample input. -/
theorem C5_witness :
    euclideanDistance [0] [0, 3] = euclideanDistance [0] ([0, 3].take 1) := by
  have h := C5_amended_silently_truncates [0] [0, 3] (by decide)
  simpa using h

/-! ## C10: every appended attendance event has confidence at least 40 -/

/-- The best distance returned by the scan is a square root, hence
non-negative. -/
theorem findBest_some_nonneg (probe : List ℚ) (faces : List FaceRecord)
    (b : FaceRecord) (bd : ℝ) (h : findBest probe faces = some (b, bd)) :
    0 ≤ bd := by
  cases faces with
  | nil => exact absurd h (by simp [findBest])
  | cons f fs =>
      rw [findBest_cons] at h
      rcases pairFold_spec probe fs (pairOf probe f) with ⟨i, hi, heq, -, -⟩
      have hres : (b, bd) = pairFold probe (pairOf probe f) fs :=
        (Option.some.inj h).symm
      have hlist : (pairOf probe f :: fs.map (pairOf probe)) =
          (f :: fs).map (pairOf probe) := by rw [List.map_cons]
      rw [hlist] at hi heq
      have hi' : i < (f :: fs).length := by simpa using hi
      rw [heq, getD_map_pairOf probe (f :: fs) i hi'] at hres
      have : bd = euclideanDistance probe ((f :: fs).getD i default).descriptor := by
        have := congrArg Prod.snd hres
        simpa [pairOf] using this
      rw [this]
      exact Real.sqrt_nonneg _

/-- Inversion for a `Matched` result: the confidence comes from a
non-negative best distance strictly below the threshold. -/
theorem matchProbe_matched_inv (probe : List ℚ) (faces : List FaceRecord)
    (threshold : ℝ) (nm : String) (conf : ℤ)
    (h : matchProbe probe faces threshold = MatchResult.matched nm conf) :
    ∃ bd : ℝ, 0 ≤ bd ∧ bd < threshold ∧ conf = round ((1 - bd) * 100) := by
  unfold matchProbe at h
  rcases hfb : findBest probe faces with _ | ⟨b, bd⟩
  · rw [hfb] at h
    exact absurd h (by simp)
  · rw [hfb] at h
    have h' : (if bd < threshold then
        MatchResult.matched b.name (round ((1 - bd) * 100))
      else MatchResult.unmatched bd) = MatchResult.matched nm conf := h
    by_cases hlt : bd < threshold
    · refine ⟨bd, findBest_some_nonneg probe faces b bd hfb, hlt, ?_⟩
      rw [if_pos hlt] at h'
      have := (MatchResult.matched.injEq _ _ _ _).mp h'.symm
      exact this.2
    · rw [if_neg hlt] at h'
      exact absurd h' (by simp)

/-- C10: every event in the attendance log after a `checkIn` call either was
already in the log or was appended by this call with confidence at least 40:
the hard-coded threshold `0.6` forces `round((1-d)*100) ≥ 40`, so the
negative-confidence quirk is unreachable through the attendance endpoint. -/
theorem C10_confidence_at_least_40 (imagePresent : Bool) (ext : ExtractResult)
    (faces : List FaceRecord) (log : List AttendanceEvent) (now : String) :
    ∀ e ∈ (checkIn imagePresent ext faces log now).2,
      e ∈ log ∨ 40 ≤ e.confidence := by
  cases imagePresent with
  | false =>
      have hck : checkIn false ext faces log now =
          (AttendanceOutcome.validationError, log) := rfl
      rw [hck]
      intro e he
      exact Or.inl he
  | true =>
      cases ext with
      | notFound =>
          have hck : checkIn true ExtractResult.notFound faces log now =
              (AttendanceOutcome.noFaceDetected, log) := rfl
          rw [hck]
          intro e he
          exact Or.inl he
      | found probe =>
          have hck : checkIn true (ExtractResult.found probe) faces log now =
              (if faces.length = 0 then (AttendanceOutcome.noRegisteredFaces, log)
               else
                match matchProbe probe faces 0.6 with
                | MatchResult.matched nm conf =>
                    (AttendanceOutcome.marked nm conf now,
                      log ++ [{ name := nm, timestamp := now, confidence := conf }])
                | _ => (AttendanceOutcome.notRecognized, log)) := rfl
          rw [hck]
          by_cases hlen : faces.length = 0
          · rw [if_pos hlen]
            intro e he
            exact Or.inl he
          · rw [if_neg hlen]
            rcases hm : matchProbe probe faces 0.6 with ⟨nm, conf⟩ | bd | _
            · intro e he
              rcases List.mem_append.mp he with he | he
              · exact Or.inl he
              · rcases List.mem_singleton.mp he with rfl
                right
                rcases matchProbe_matched_inv probe faces 0.6 nm conf hm with
                  ⟨bd, hbd0, hbdlt, hconf⟩
                show (40 : ℤ) ≤ conf
                rw [hconf, round_eq, Int.le_floor]
                push_cast
                norm_num at hbdlt ⊢
                linarith
            · intro e he
              exact Or.inl he
            · intro e he
              exact Or.inl he

/-- C10 witness: a concrete check-in that appends an event (distance 0,
confidence 100 ≥ 40). -/
theorem C10_witness :
    (⟨"W", "n", 100⟩ : AttendanceEvent) ∈
        (checkIn true (ExtractResult.found [0, 0]) [⟨"W", [0, 0], "t"⟩] [] "n").2 ∧
    ((⟨"W", "n", 100⟩ : AttendanceEvent) ∈ ([] : List AttendanceEvent) ∨
      40 ≤ (⟨"W", "n", 100⟩ : AttendanceEvent).confidence) := by
  have hd0 : euclideanDistance [0, 0] [0, 0] = (0 : ℝ) := by
    simpa using euclideanDistance_eval [0, 0] [0, 0] 0 0
      (by unfold sqSum; norm_num [List.range_succ]) le_rfl (by norm_num)
  have hp : pairOf [0, 0] (⟨"W", [0, 0], "t"⟩ : FaceRecord) =
      ((⟨"W", [0, 0], "t"⟩ : FaceRecord), (0 : ℝ)) := by
    unfold pairOf
    rw [hd0]
  have hfb : findBest [0, 0] [(⟨"W", [0, 0], "t"⟩ : FaceRecord)] =
      some ((⟨"W", [0, 0], "t"⟩ : FaceRecord), (0 : ℝ)) := by
    rw [findBest_singleton, hp]
  have hm : matchProbe [0, 0] [⟨"W", [0, 0], "t"⟩] 0.6 =
      MatchResult.matched "W" 100 := by
    unfold matchProbe
    rw [hfb]
    show (if (0 : ℝ) < 0.6 then
        MatchResult.matched "W" (round ((1 - (0 : ℝ)) * 100))
      else MatchResult.unmatched (0 : ℝ)) = MatchResult.matched "W" 100
    rw [if_pos (by norm_num : (0 : ℝ) < 0.6)]
    norm_num [round_eq]
  have hmem : (⟨"W", "n", 100⟩ : AttendanceEvent) ∈
      (checkIn true (ExtractResult.found [0, 0]) [⟨"W", [0, 0], "t"⟩] [] "n").2 := by
    have hck : checkIn true (ExtractResult.found [0, 0])
        [⟨"W", [0, 0], "t"⟩] [] "n" =
        (match matchProbe [0, 0] [⟨"W", [0, 0], "t"⟩] 0.6 with
          | MatchResult.matched nm conf =>
              (AttendanceOutcome.marked nm conf "n",
                [{ name := nm, timestamp := "n", confidence := conf }])
          | _ => (AttendanceOutcome.notRecognized, [])) := rfl
    rw [hck, hm]
    simp
  exact ⟨hmem,
    C10_confidence_at_least_40 true (ExtractResult.found [0, 0])
      [⟨"W", [0, 0], "t"⟩] [] "n" _ hmem⟩

/-- C9 witness: two concrete stores that differ only in descriptor values. -/
theorem C9_witness :
    listFaces [⟨"Alice", [0, 1], "t0"⟩, ⟨"Bob", [2], "t1"⟩] =
      listFaces [⟨"Alice", [5, 7], "t0"⟩, ⟨"Bob", [9], "t1"⟩] :=
  C9_listFaces_ignores_descriptors _ _ (by rfl)

/-! ## C8: `save(load())` is structurally a no-op — printer/parser round trip -/

/-- A digit character refuses to be any non-digit character. -/
theorem isDigit_ne (c ch : Char) (h : c.isDigit = true) (hch : ch.isDigit = false) :
    c ≠ ch := by
  intro he
  subst he
  rw [h] at hch
  cases hch

/-- Keyword tails parse back. -/
theorem dropLit_append : ∀ (lit rest : List Char), dropLit lit (lit ++ rest) = some rest := by
  intro lit
  induction lit with
  | nil => intro rest; rfl
  | cons c cs ih =>
      intro rest
      show dropLit (c :: cs) (c :: (cs ++ rest)) = some rest
      unfold dropLit
      rw [if_pos rfl]
      exact ih rest

/-- Escaped string bodies parse back. -/
theorem parseStringAux_escape :
    ∀ (s rest : List Char), parseStringAux (escapeChars s ++ '"' :: rest) = some (s, rest) := by
  intro s
  induction s with
  | nil =>
      intro rest
      show parseStringAux ('"' :: rest) = some ([], rest)
      unfold parseStringAux
      rw [if_pos rfl]
  | cons c cs ih =>
      intro rest
      by_cases hc : c = '"' ∨ c = '\\'
      · have hesc : escapeChars (c :: cs) = '\\' :: c :: escapeChars cs := by
          conv_lhs => unfold escapeChars
          rw [if_pos hc]
        rw [hesc]
        show parseStringAux ('\\' :: c :: (escapeChars cs ++ '"' :: rest)) = _
        unfold parseStringAux
        rw [if_neg (by decide : ¬ ('\\' : Char) = '"'), if_pos rfl]
        show (if c = '"' ∨ c = '\\' then
            (parseStringAux (escapeChars cs ++ '"' :: rest)).map fun p => (c :: p.1, p.2)
          else none) = some (c :: cs, rest)
        rw [if_pos hc, ih rest]
        rfl
      · have hesc : escapeChars (c :: cs) = c :: escapeChars cs := by
          conv_lhs => unfold escapeChars
          rw [if_neg hc]
        rw [hesc]
        push_neg at hc
        show parseStringAux (c :: (escapeChars cs ++ '"' :: rest)) = _
        unfold parseStringAux
        rw [if_neg hc.1, if_neg hc.2, ih rest]
        rfl

/-- Digit characters are digits. -/
theorem digitChar_isDigit (d : ℕ) (h : d < 10) : (Nat.digitChar d).isDigit = true := by
  interval_cases d <;> decide

/-- `digitVal` inverts `Nat.digitChar` below 10. -/
theorem digitVal_digitChar (d : ℕ) (h : d < 10) : digitVal (Nat.digitChar d) = d := by
  interval_cases d <;> decide

/-- `natToDigits` never returns the empty list. -/
theorem natToDigits_ne_nil (n : ℕ) : natToDigits n ≠ [] := by
  rw [natToDigits]
  split
  · simp
  · simp

/-- All characters produced by `natToDigits` are digits. -/
theorem natToDigits_all_digits : ∀ n : ℕ, ∀ c ∈ natToDigits n, c.isDigit = true := by
  intro n
  induction n using Nat.strong_induction_on with
  | _ n ih =>
      rw [natToDigits]
      split
      · intro c hc
        rcases List.mem_singleton.mp hc with rfl
        exact digitChar_isDigit n (by omega)
      · intro c hc
        rcases List.mem_append.mp hc with hc | hc
        · exact ih (n / 10) (Nat.div_lt_self (by omega) (by omega)) c hc
        · rcases List.mem_singleton.mp hc with rfl
          exact digitChar_isDigit _ (Nat.mod_lt _ (by omega))

/-- `digitsVal` with an arbitrary accumulator. -/
theorem digitsVal_foldl_acc :
    ∀ (ds : List Char) (a : ℕ),
      ds.foldl (fun a c => a * 10 + digitVal c) a = a * 10 ^ ds.length + digitsVal ds := by
  intro ds
  induction ds with
  | nil => intro a; simp [digitsVal]
  | cons c ds ih =>
      intro a
      rw [List.foldl_cons, ih (a * 10 + digitVal c)]
      have hc : digitsVal (c :: ds) = digitVal c * 10 ^ ds.length + digitsVal ds := by
        show List.foldl (fun a c => a * 10 + digitVal c) 0 (c :: ds) = _
        rw [List.foldl_cons, ih (0 * 10 + digitVal c),
          show 0 * 10 + digitVal c = digitVal c by omega]
      rw [hc, List.length_cons]
      ring

/-- `digitsVal` of a run extended by one digit. -/
theorem digitsVal_append_single (ds : List Char) (c : Char) :
    digitsVal (ds ++ [c]) = digitsVal ds * 10 + digitVal c := by
  unfold digitsVal
  rw [List.foldl_append]
  rfl

/-- Digit runs printed by `natToDigits` evaluate back to the number. -/
theorem digitsVal_natToDigits : ∀ n : ℕ, digitsVal (natToDigits n) = n := by
  intro n
  induction n using Nat.strong_induction_on with
  | _ n ih =>
      rw [natToDigits]
      split
      · rename_i h
        show digitsVal [Nat.digitChar n] = n
        unfold digitsVal
        rw [List.foldl_cons, List.foldl_nil]
        rw [show 0 * 10 + digitVal (Nat.digitChar n) = digitVal (Nat.digitChar n) by omega]
        exact digitVal_digitChar n h
      · rename_i h
        rw [digitsVal_append_single, ih (n / 10) (Nat.div_lt_self (by omega) (by omega)),
          digitVal_digitChar _ (Nat.mod_lt _ (by omega))]
        omega

/-- `fracDigits e n` has exactly `e` characters. -/
theorem fracDigits_length : ∀ (e n : ℕ), (fracDigits e n).length = e := by
  intro e
  induction e with
  | zero => intro n; rfl
  | succ k ih =>
      intro n
      unfold fracDigits
      rw [List.length_append, ih (n / 10)]
      simp

/-- All characters produced by `fracDigits` are digits. -/
theorem fracDigits_all_digits : ∀ (e n : ℕ), ∀ c ∈ fracDigits e n, c.isDigit = true := by
  intro e
  induction e with
  | zero => intro n c hc; cases hc
  | succ k ih =>
      intro n c hc
      unfold fracDigits at hc
      rcases List.mem_append.mp hc with hc | hc
      · exact ih (n / 10) c hc
      · rcases List.mem_singleton.mp hc with rfl
        exact digitChar_isDigit _ (Nat.mod_lt _ (by omega))

/-- `fracDigits e n` evaluates back to `n % 10^e`. -/
theorem digitsVal_fracDigits : ∀ (e n : ℕ), digitsVal (fracDigits e n) = n % 10 ^ e := by
  intro e
  induction e with
  | zero =>
      intro n
      simp only [fracDigits, digitsVal, List.foldl_nil, pow_zero, Nat.mod_one]
  | succ k ih =>
      intro n
      unfold fracDigits
      rw [digitsVal_append_single, ih (n / 10),
        digitVal_digitChar _ (Nat.mod_lt _ (by omega))]
      rw [pow_succ, mul_comm (10 ^ k) 10, Nat.mod_mul]
      ring

/-- A digit run followed by a non-digit splits exactly at the boundary. -/
theorem parseDigits_append :
    ∀ (ds rest : List Char), (∀ c ∈ ds, c.isDigit = true) → notDigitStart rest →
      parseDigits (ds ++ rest) = (ds, rest) := by
  intro ds
  induction ds with
  | nil =>
      intro rest _ hrest
      cases rest with
      | nil => rfl
      | cons c cs =>
          show parseDigits (c :: cs) = ([], c :: cs)
          unfold parseDigits
          rw [if_neg (by rw [hrest]; exact Bool.false_ne_true)]
  | cons d ds ih =>
      intro rest hds hrest
      show parseDigits (d :: (ds ++ rest)) = (d :: ds, rest)
      unfold parseDigits
      rw [if_pos (hds d (List.mem_cons_self d ds)),
        ih rest (fun c hc => hds c (List.mem_cons_of_mem d hc)) hrest]

/-- A delimiter context in particular does not start with a digit. -/
theorem delim_notDigitStart : ∀ (rest : List Char), delim rest → notDigitStart rest :=
  fun rest h =>
    match rest, h with
    | [], _ => trivial
    | _ :: _, h => h.1

/-- Printed unsigned numeric literals parse back (in a delimiter context). -/
theorem parsePosNum_print (n e : ℕ) (rest : List Char) (hrest : delim rest) :
    parsePosNum (natToDigits (n / 10 ^ e) ++
      ((if e = 0 then [] else '.' :: fracDigits e n) ++ rest)) = some ((n, e), rest) := by
  obtain ⟨d, ds', hds⟩ := List.exists_cons_of_ne_nil (natToDigits_ne_nil (n / 10 ^ e))
  have hdig : ∀ c ∈ natToDigits (n / 10 ^ e), c.isDigit = true := natToDigits_all_digits _
  have hval : digitsVal (d :: ds') = n / 10 ^ e := by
    rw [← hds, digitsVal_natToDigits]
  by_cases he : e = 0
  · subst he
    rw [if_pos rfl, List.nil_append]
    unfold parsePosNum
    rw [parseDigits_append _ rest hdig (delim_notDigitStart rest hrest), hds]
    cases rest with
    | nil =>
        show some ((digitsVal (d :: ds'), 0), ([] : List Char)) = some ((n, 0), [])
        rw [hval]
        norm_num
    | cons c r2 =>
        show (if c = '.' then _ else some ((digitsVal (d :: ds'), 0), c :: r2)) =
          some ((n, 0), c :: r2)
        rw [if_neg hrest.2, hval]
        norm_num
  · rw [if_neg he]
    unfold parsePosNum
    rw [show ('.' :: fracDigits e n) ++ rest = '.' :: (fracDigits e n ++ rest) from rfl]
    rw [parseDigits_append _ ('.' :: (fracDigits e n ++ rest)) hdig
      (by show ('.' : Char).isDigit = false; decide), hds]
    show (if ('.' : Char) = '.' then _ else _) = _
    rw [if_pos rfl]
    rw [parseDigits_append (fracDigits e n) rest (fracDigits_all_digits e n)
      (delim_notDigitStart rest hrest)]
    obtain ⟨f, fs, hf⟩ : ∃ f fs, fracDigits e n = f :: fs := by
      cases hfe : fracDigits e n with
      | nil =>
          exfalso
          have := fracDigits_length e n
          rw [hfe] at this
          simp at this
          omega
      | cons f fs => exact ⟨f, fs, rfl⟩
    rw [hf]
    show some ((digitsVal (d :: ds') * 10 ^ (f :: fs).length + digitsVal (f :: fs),
      (f :: fs).length), rest) = some ((n, e), rest)
    rw [hval, ← hf, digitsVal_fracDigits, fracDigits_length]
    have hdm : n / 10 ^ e * 10 ^ e + n % 10 ^ e = n := by
      rw [mul_comm]
      exact Nat.div_add_mod n (10 ^ e)
    rw [hdm]

/-- Printed signed numeric literals parse back (in a delimiter context). -/
theorem parseNum_print (m : ℤ) (e : ℕ) (rest : List Char) (hrest : delim rest) :
    parseNum (printNum m e ++ rest) = some ((m, e), rest) := by
  unfold printNum
  by_cases hm : m < 0
  · rw [if_pos hm]
    have hsh : ((['-'] ++ natToDigits (m.natAbs / 10 ^ e) ++
        (if e = 0 then [] else '.' :: fracDigits e m.natAbs)) ++ rest) =
        '-' :: (natToDigits (m.natAbs / 10 ^ e) ++
          ((if e = 0 then [] else '.' :: fracDigits e m.natAbs) ++ rest)) := by
      simp [List.append_assoc]
    rw [hsh]
    unfold parseNum
    show (if ('-' : Char) = '-' then _ else _) = _
    rw [if_pos rfl, parsePosNum_print m.natAbs e rest hrest]
    show some (((-(m.natAbs : ℤ) : ℤ), e), rest) = some ((m, e), rest)
    have hneg : (-(m.natAbs : ℤ) : ℤ) = m := by omega
    rw [hneg]
  · rw [if_neg hm, List.nil_append, List.append_assoc]
    obtain ⟨d, ds', hds⟩ := List.exists_cons_of_ne_nil (natToDigits_ne_nil (m.natAbs / 10 ^ e))
    have hd : d.isDigit = true :=
      natToDigits_all_digits _ d (by rw [hds]; exact List.mem_cons_self d ds')
    rw [hds, List.cons_append]
    unfold parseNum
    show (if d = '-' then _
      else (parsePosNum (d :: (ds' ++ _))).map fun p => (((p.1.1 : ℤ), p.1.2), p.2)) = _
    rw [if_neg (isDigit_ne d '-' hd (by decide))]
    rw [← List.cons_append, ← hds, parsePosNum_print m.natAbs e rest hrest]
    show some (((m.natAbs : ℤ), e), rest) = some ((m, e), rest)
    have habs : ((m.natAbs : ℤ)) = m := by omega
    rw [habs]

/-! Unfolding equations for the mutual printer and parser. -/

theorem pj_null : printJson Json.null = ['n', 'u', 'l', 'l'] := by
  unfold printJson
  rfl

theorem pj_true : printJson (Json.bool true) = ['t', 'r', 'u', 'e'] := by
  unfold printJson
  rfl

theorem pj_false : printJson (Json.bool false) = ['f', 'a', 'l', 's', 'e'] := by
  unfold printJson
  rfl

theorem pj_num (m : ℤ) (e : ℕ) : printJson (Json.num m e) = printNum m e := by
  unfold printJson
  rfl

theorem pj_str (s : List Char) :
    printJson (Json.str s) = '"' :: escapeChars s ++ ['"'] := by
  unfold printJson
  rfl

theorem pj_arr (vs : List Json) :
    printJson (Json.arr vs) = '[' :: printElems vs ++ [']'] := by
  unfold printJson
  rfl

theorem pj_obj (kvs : List (List Char × Json)) :
    printJson (Json.obj kvs) = '{' :: printFields kvs ++ ['}'] := by
  unfold printJson
  rfl

theorem pe_single (v : Json) : printElems [v] = printJson v := by
  unfold printElems
  rfl

theorem pe_cons₂ (v w : Json) (ws : List Json) :
    printElems (v :: w :: ws) = printJson v ++ ',' :: printElems (w :: ws) := by
  conv_lhs => unfold printElems

theorem pf_single (k : List Char) (v : Json) :
    printFields [(k, v)] = '"' :: escapeChars k ++ '"' :: ':' :: printJson v := by
  unfold printFields
  rfl

theorem pf_cons₂ (k : List Char) (v : Json) (kv : List Char × Json)
    (kvs : List (List Char × Json)) :
    printFields ((k, v) :: kv :: kvs) =
      ('"' :: escapeChars k ++ '"' :: ':' :: printJson v) ++ ',' :: printFields (kv :: kvs) := by
  conv_lhs => unfold printFields

theorem parseValue_succ_eq (fuel : ℕ) (c : Char) (cs : List Char) :
    parseValue (fuel + 1) (c :: cs) =
      (if c = 'n' then (dropLit ['u', 'l', 'l'] cs).map fun rest => (Json.null, rest)
      else if c = 't' then (dropLit ['r', 'u', 'e'] cs).map fun rest => (Json.bool true, rest)
      else if c = 'f' then
        (dropLit ['a', 'l', 's', 'e'] cs).map fun rest => (Json.bool false, rest)
      else if c = '"' then (parseStringAux cs).map fun p => (Json.str p.1, p.2)
      else if c = '[' then
        match cs with
        | [] => none
        | c1 :: cs1 =>
            if c1 = ']' then some (Json.arr [], cs1)
            else (parseElems fuel (c1 :: cs1)).map fun p => (Json.arr p.1, p.2)
      else if c = '{' then
        match cs with
        | [] => none
        | c1 :: cs1 =>
            if c1 = '}' then some (Json.obj [], cs1)
            else (parseFields fuel (c1 :: cs1)).map fun p => (Json.obj p.1, p.2)
      else if c = '-' ∨ c.isDigit then
        (parseNum (c :: cs)).map fun p => (Json.num p.1.1 p.1.2, p.2)
      else none) := by
  conv_lhs => unfold parseValue

theorem parseElems_succ_eq (fuel : ℕ) (input : List Char) :
    parseElems (fuel + 1) input =
      (match parseValue fuel input with
      | none => none
      | some (v, rest) =>
          match rest with
          | [] => none
          | c :: rest2 =>
              if c = ',' then (parseElems fuel rest2).map fun p => (v :: p.1, p.2)
              else if c = ']' then some ([v], rest2)
              else none) := by
  conv_lhs => unfold parseElems

theorem parseFields_succ_eq (fuel : ℕ) (input : List Char) :
    parseFields (fuel + 1) input =
      (match input with
      | [] => none
      | c :: cs =>
          if c = '"' then
            match parseStringAux cs with
            | none => none
            | some (key, rest1) =>
                match rest1 with
                | [] => none
                | c1 :: rest2 =>
                    if c1 = ':' then
                      match parseValue fuel rest2 with
                      | none => none
                      | some (v, rest3) =>
                          match rest3 with
                          | [] => none
                          | c2 :: rest4 =>
                              if c2 = ',' then
                                (parseFields fuel rest4).map fun p => ((key, v) :: p.1, p.2)
                              else if c2 = '}' then some ([(key, v)], rest4)
                              else none
                    else none
          else none) := by
  conv_lhs => unfold parseFields

/-! Head shapes of printed output. -/

/-- A printed number starts with a minus sign or a digit. -/
theorem printNum_head (m : ℤ) (e : ℕ) :
    ∃ c cs, printNum m e = c :: cs ∧ (c = '-' ∨ c.isDigit = true) := by
  unfold printNum
  by_cases hm : m < 0
  · rw [if_pos hm, List.append_assoc]
    exact ⟨'-', _, rfl, Or.inl rfl⟩
  · rw [if_neg hm, List.nil_append]
    obtain ⟨d, ds', hds⟩ := List.exists_cons_of_ne_nil (natToDigits_ne_nil (m.natAbs / 10 ^ e))
    have hd : d.isDigit = true :=
      natToDigits_all_digits _ d (by rw [hds]; exact List.mem_cons_self d ds')
    rw [hds, List.cons_append]
    exact ⟨d, _, rfl, Or.inr hd⟩

/-- Printed values never start with a closing bracket, closing brace or
comma (so array/object continuation is unambiguous). -/
theorem printJson_head (v : Json) :
    ∃ c cs, printJson v = c :: cs ∧ c ≠ ']' ∧ c ≠ '}' := by
  cases v with
  | null => exact ⟨'n', _, pj_null, by decide, by decide⟩
  | bool b =>
      cases b with
      | true => exact ⟨'t', _, pj_true, by decide, by decide⟩
      | false => exact ⟨'f', _, pj_false, by decide, by decide⟩
  | num m e =>
      obtain ⟨c, cs, hc, hshape⟩ := printNum_head m e
      refine ⟨c, cs, by rw [pj_num, hc], ?_, ?_⟩
      · rcases hshape with rfl | hd
        · decide
        · exact isDigit_ne c ']' hd (by decide)
      · rcases hshape with rfl | hd
        · decide
        · exact isDigit_ne c '}' hd (by decide)
  | str s => exact ⟨'"', escapeChars s ++ ['"'], pj_str s, by decide, by decide⟩
  | arr vs => exact ⟨'[', printElems vs ++ [']'], pj_arr vs, by decide, by decide⟩
  | obj kvs => exact ⟨'{', printFields kvs ++ ['}'], pj_obj kvs, by decide, by decide⟩

/-- Printed values are never empty. -/
theorem printJson_ne_nil (v : Json) : printJson v ≠ [] := by
  obtain ⟨c, cs, hc, -, -⟩ := printJson_head v
  rw [hc]
  simp

theorem pe_nil : printElems [] = [] := by
  unfold printElems
  rfl

theorem delim_cons (c : Char) (rest : List Char) (h1 : c.isDigit = false)
    (h2 : c ≠ '.') : delim (c :: rest) := ⟨h1, h2⟩

/-- Nonempty printed element lists expose a head character that is not a
closing bracket or brace. -/
theorem printElems_head (w : Json) (ws : List Json) :
    ∃ c1 cs1, printElems (w :: ws) = c1 :: cs1 ∧ c1 ≠ ']' ∧ c1 ≠ '}' := by
  obtain ⟨c, cs, hc, h1, h2⟩ := printJson_head w
  cases ws with
  | nil => exact ⟨c, cs, by rw [pe_single, hc], h1, h2⟩
  | cons x xs =>
      refine ⟨c, cs ++ ',' :: printElems (x :: xs), ?_, h1, h2⟩
      rw [pe_cons₂, hc, List.cons_append]

/-- Nonempty printed field lists start with a quote. -/
theorem printFields_head (k : List Char) (jv : Json) (kvs : List (List Char × Json)) :
    ∃ cs1, printFields ((k, jv) :: kvs) = '"' :: cs1 := by
  cases kvs with
  | nil => exact ⟨_, pf_single k jv⟩
  | cons kv2 kvs2 =>
      have h := pf_cons₂ k jv kv2 kvs2
      rw [List.cons_append] at h
      exact ⟨_, h⟩

/-- The printer/parser round trip: with enough fuel (one unit more than the
printed length), every printed value, element list, and field list parses
back exactly, leaving the rest of the input untouched. -/
theorem parser_roundtrip : ∀ fuel : ℕ,
    (∀ v rest, (printJson v).length ≤ fuel → delim rest →
      parseValue fuel (printJson v ++ rest) = some (v, rest)) ∧
    (∀ v vs rest, (printElems (v :: vs)).length < fuel →
      parseElems fuel (printElems (v :: vs) ++ ']' :: rest) = some (v :: vs, rest)) ∧
    (∀ k jv kvs rest, (printFields ((k, jv) :: kvs)).length < fuel →
      parseFields fuel (printFields ((k, jv) :: kvs) ++ '}' :: rest) =
        some ((k, jv) :: kvs, rest)) := by
  intro fuel
  induction fuel with
  | zero =>
      refine ⟨?_, ?_, ?_⟩
      · intro v rest hlen _
        exfalso
        have := printJson_ne_nil v
        have hz : printJson v = [] := List.length_eq_zero.mp (by omega)
        exact this hz
      · intro v vs rest hlen
        exact absurd hlen (by omega)
      · intro k jv kvs rest hlen
        exact absurd hlen (by omega)
  | succ fuel ih =>
      obtain ⟨ihA, ihB, ihC⟩ := ih
      refine ⟨?_, ?_, ?_⟩
      · -- values
        intro v rest hlen hrest
        cases v with
        | null =>
            rw [pj_null,
              show (['n', 'u', 'l', 'l'] : List Char) ++ rest =
                'n' :: (['u', 'l', 'l'] ++ rest) from rfl,
              parseValue_succ_eq, if_pos rfl, dropLit_append]
            rfl
        | bool b =>
            cases b with
            | true =>
                rw [pj_true,
                  show (['t', 'r', 'u', 'e'] : List Char) ++ rest =
                    't' :: (['r', 'u', 'e'] ++ rest) from rfl,
                  parseValue_succ_eq, if_neg (by decide), if_pos rfl, dropLit_append]
                rfl
            | false =>
                rw [pj_false,
                  show (['f', 'a', 'l', 's', 'e'] : List Char) ++ rest =
                    'f' :: (['a', 'l', 's', 'e'] ++ rest) from rfl,
                  parseValue_succ_eq, if_neg (by decide), if_neg (by decide), if_pos rfl,
                  dropLit_append]
                rfl
        | num m e =>
            rw [pj_num]
            obtain ⟨c, cs, hc, hshape⟩ := printNum_head m e
            have hn : c ≠ 'n' := by
              rcases hshape with rfl | hd
              · decide
              · exact isDigit_ne c 'n' hd (by decide)
            have ht : c ≠ 't' := by
              rcases hshape with rfl | hd
              · decide
              · exact isDigit_ne c 't' hd (by decide)
            have hf : c ≠ 'f' := by
              rcases hshape with rfl | hd
              · decide
              · exact isDigit_ne c 'f' hd (by decide)
            have hq : c ≠ '"' := by
              rcases hshape with rfl | hd
              · decide
              · exact isDigit_ne c '"' hd (by decide)
            have hbk : c ≠ '[' := by
              rcases hshape with rfl | hd
              · decide
              · exact isDigit_ne c '[' hd (by decide)
            have hbc : c ≠ '{' := by
              rcases hshape with rfl | hd
              · decide
              · exact isDigit_ne c '{' hd (by decide)
            rw [hc, List.cons_append, parseValue_succ_eq, if_neg hn, if_neg ht, if_neg hf,
              if_neg hq, if_neg hbk, if_neg hbc, if_pos hshape, ← List.cons_append, ← hc,
              parseNum_print m e rest hrest]
            rfl
        | str s =>
            rw [pj_str,
              show ('"' :: escapeChars s ++ ['"']) ++ rest =
                '"' :: (escapeChars s ++ '"' :: rest) by simp,
              parseValue_succ_eq, if_neg (by decide), if_neg (by decide), if_neg (by decide),
              if_pos rfl, parseStringAux_escape]
            rfl
        | arr vs =>
            cases vs with
            | nil =>
                rw [pj_arr, pe_nil,
                  show (('[' : Char) :: [] ++ [']']) ++ rest = '[' :: ']' :: rest from rfl,
                  parseValue_succ_eq, if_neg (by decide), if_neg (by decide),
                  if_neg (by decide), if_neg (by decide), if_pos rfl]
                show (if (']' : Char) = ']' then some (Json.arr [], rest) else _) =
                  some (Json.arr [], rest)
                rw [if_pos rfl]
            | cons w ws =>
                obtain ⟨c1, cs1, hpe, hne1, -⟩ := printElems_head w ws
                have hlen' : (printElems (w :: ws)).length < fuel := by
                  rw [pj_arr] at hlen
                  simp only [List.length_append, List.length_cons] at hlen
                  simp at hlen
                  omega
                rw [pj_arr,
                  show ('[' :: printElems (w :: ws) ++ [']']) ++ rest =
                    '[' :: (printElems (w :: ws) ++ ']' :: rest) by simp,
                  hpe, List.cons_append, parseValue_succ_eq, if_neg (by decide),
                  if_neg (by decide), if_neg (by decide), if_neg (by decide), if_pos rfl]
                show (if c1 = ']' then _
                  else (parseElems fuel (c1 :: (cs1 ++ ']' :: rest))).map
                    fun p => (Json.arr p.1, p.2)) = some (Json.arr (w :: ws), rest)
                rw [if_neg hne1, ← List.cons_append, ← hpe, ihB w ws rest hlen']
                rfl
        | obj kvs =>
            cases kvs with
            | nil =>
                have hpf : printFields ([] : List (List Char × Json)) = [] := by
                  unfold printFields
                  rfl
                rw [pj_obj, hpf,
                  show (('{' : Char) :: [] ++ ['}']) ++ rest = '{' :: '}' :: rest from rfl,
                  parseValue_succ_eq, if_neg (by decide), if_neg (by decide),
                  if_neg (by decide), if_neg (by decide), if_neg (by decide), if_pos rfl]
                show (if ('}' : Char) = '}' then some (Json.obj [], rest) else _) =
                  some (Json.obj [], rest)
                rw [if_pos rfl]
            | cons kv kvs2 =>
                obtain ⟨k, jv⟩ := kv
                obtain ⟨cs1, hpf⟩ := printFields_head k jv kvs2
                have hlen' : (printFields ((k, jv) :: kvs2)).length < fuel := by
                  rw [pj_obj] at hlen
                  simp only [List.length_append, List.length_cons] at hlen
                  simp at hlen
                  omega
                rw [pj_obj,
                  show ('{' :: printFields ((k, jv) :: kvs2) ++ ['}']) ++ rest =
                    '{' :: (printFields ((k, jv) :: kvs2) ++ '}' :: rest) by simp,
                  hpf, List.cons_append, parseValue_succ_eq, if_neg (by decide),
                  if_neg (by decide), if_neg (by decide), if_neg (by decide),
                  if_neg (by decide), if_pos rfl]
                show (if ('"' : Char) = '}' then _
                  else (parseFields fuel ('"' :: (cs1 ++ '}' :: rest))).map
                    fun p => (Json.obj p.1, p.2)) = some (Json.obj ((k, jv) :: kvs2), rest)
                rw [if_neg (by decide), ← List.cons_append, ← hpf,
                  ihC k jv kvs2 rest hlen']
                rfl
      · -- array elements
        intro v vs rest hlen
        cases vs with
        | nil =>
            have hlenA : (printJson v).length ≤ fuel := by
              rw [pe_single] at hlen
              omega
            rw [pe_single, parseElems_succ_eq,
              ihA v (']' :: rest) hlenA (delim_cons ']' rest (by decide) (by decide))]
            show (if (']' : Char) = ',' then _
              else if (']' : Char) = ']' then some ([v], rest) else none) = some ([v], rest)
            rw [if_neg (by decide), if_pos rfl]
        | cons w ws =>
            have hlens : (printElems (v :: w :: ws)).length =
                (printJson v).length + 1 + (printElems (w :: ws)).length := by
              rw [pe_cons₂]
              simp [List.length_append]
              omega
            have hvpos : 0 < (printJson v).length :=
              List.length_pos.mpr (printJson_ne_nil v)
            have hlenA : (printJson v).length ≤ fuel := by omega
            have hlenB : (printElems (w :: ws)).length < fuel := by omega
            rw [pe_cons₂,
              show (printJson v ++ ',' :: printElems (w :: ws)) ++ ']' :: rest =
                printJson v ++ (',' :: (printElems (w :: ws) ++ ']' :: rest)) by simp,
              parseElems_succ_eq,
              ihA v (',' :: (printElems (w :: ws) ++ ']' :: rest)) hlenA
                (delim_cons ',' _ (by decide) (by decide))]
            show (if (',' : Char) = ',' then
                (parseElems fuel (printElems (w :: ws) ++ ']' :: rest)).map
                  fun p => (v :: p.1, p.2)
              else _) = some (v :: w :: ws, rest)
            rw [if_pos rfl, ihB w ws rest hlenB]
            rfl
      · -- object fields
        intro k jv kvs rest hlen
        cases kvs with
        | nil =>
            have hlenA : (printJson jv).length ≤ fuel := by
              have := congrArg List.length (pf_single k jv)
              simp [List.length_append] at this
              omega
            rw [pf_single,
              show ('"' :: escapeChars k ++ '"' :: ':' :: printJson jv) ++ '}' :: rest =
                '"' :: (escapeChars k ++ '"' :: (':' :: (printJson jv ++ '}' :: rest))) by
                  simp,
              parseFields_succ_eq]
            show (if ('"' : Char) = '"' then _ else none) =
              some ([(k, jv)], rest)
            rw [if_pos rfl, parseStringAux_escape k (':' :: (printJson jv ++ '}' :: rest))]
            show (if (':' : Char) = ':' then _ else none) = some ([(k, jv)], rest)
            rw [if_pos rfl,
              ihA jv ('}' :: rest) hlenA (delim_cons '}' rest (by decide) (by decide))]
            show (if ('}' : Char) = ',' then _
              else if ('}' : Char) = '}' then some ([(k, jv)], rest) else none) =
              some ([(k, jv)], rest)
            rw [if_neg (by decide), if_pos rfl]
        | cons kv2 kvs2 =>
            obtain ⟨k2, jv2⟩ := kv2
            have hlens : (printFields ((k, jv) :: (k2, jv2) :: kvs2)).length =
                (escapeChars k).length + 3 + (printJson jv).length + 1 +
                  (printFields ((k2, jv2) :: kvs2)).length := by
              rw [pf_cons₂]
              simp [List.length_append]
              omega
            have hlenA : (printJson jv).length ≤ fuel := by omega
            have hlenC : (printFields ((k2, jv2) :: kvs2)).length < fuel := by omega
            rw [pf_cons₂,
              show (('"' :: escapeChars k ++ '"' :: ':' :: printJson jv) ++
                  ',' :: printFields ((k2, jv2) :: kvs2)) ++ '}' :: rest =
                '"' :: (escapeChars k ++ '"' :: (':' :: (printJson jv ++
                  (',' :: (printFields ((k2, jv2) :: kvs2) ++ '}' :: rest))))) by simp,
              parseFields_succ_eq]
            show (if ('"' : Char) = '"' then _ else none) =
              some ((k, jv) :: (k2, jv2) :: kvs2, rest)
            rw [if_pos rfl,
              parseStringAux_escape k
                (':' :: (printJson jv ++ (',' :: (printFields ((k2, jv2) :: kvs2) ++
                  '}' :: rest))))]
            show (if (':' : Char) = ':' then _ else none) =
              some ((k, jv) :: (k2, jv2) :: kvs2, rest)
            rw [if_pos rfl,
              ihA jv (',' :: (printFields ((k2, jv2) :: kvs2) ++ '}' :: rest)) hlenA
                (delim_cons ',' _ (by decide) (by decide))]
            show (if (',' : Char) = ',' then
                (parseFields fuel (printFields ((k2, jv2) :: kvs2) ++ '}' :: rest)).map
                  fun p => ((k, jv) :: p.1, p.2)
              else _) = some ((k, jv) :: (k2, jv2) :: kvs2, rest)
            rw [if_pos rfl, ihC k2 jv2 kvs2 rest hlenC]
            rfl

/-- Top-level round trip: a printed document parses back to the same value
(the default fuel, input length + 1, is always sufficient). -/
theorem parseJson_print (v : Json) : parseJson (printJson v) = some v := by
  have h := (parser_roundtrip ((printJson v).length + 1)).1 v [] (by omega) trivial
  rw [List.append_nil] at h
  unfold parseJson
  rw [h]

/-- C8: for every non-empty persisted store whose contents can be loaded,
`save(load())` leaves the persisted collection structurally equivalent: the
document written by `saveFaces` parses back to exactly the collection that
`loadFaces` read from the original file. -/
theorem C8_save_load_structural (s : List Char) (j : Json)
    (h : loadFaces (some s) = some j) (hne : j ≠ Json.arr []) :
    loadFaces (some (saveFaces j)) = loadFaces (some s) := by
  show parseJson (printJson j) = loadFaces (some s)
  rw [parseJson_print j, h]

/-- C8 witness: the concrete store document `[{"n":1.5}]`. -/
theorem C8_witness :
    loadFaces (some ['[', '{', '"', 'n', '"', ':', '1', '.', '5', '}', ']']) =
      some (Json.arr [Json.obj [(['n'], Json.num 15 1)]]) ∧
    Json.arr [Json.obj [(['n'], Json.num 15 1)]] ≠ Json.arr [] ∧
    loadFaces (some (saveFaces (Json.arr [Json.obj [(['n'], Json.num 15 1)]]))) =
      loadFaces (some ['[', '{', '"', 'n', '"', ':', '1', '.', '5', '}', ']']) := by
  have h1 : loadFaces (some ['[', '{', '"', 'n', '"', ':', '1', '.', '5', '}', ']']) =
      some (Json.arr [Json.obj [(['n'], Json.num 15 1)]]) := by rfl
  have h2 : Json.arr [Json.obj [(['n'], Json.num 15 1)]] ≠ Json.arr [] := by
    intro hcontra
    simp at hcontra
  exact ⟨h1, h2, C8_save_load_structural _ _ h1 h2⟩

end FaceServer
